import Mathlib

/-!
Shallow embedding of the mp3cko/registry package (the complete variant:
registry_types.go, option_impls.go, the registry operations file and the
option-engine file) together with the access sub-package classifier.

Modelling conventions:
* Go maps become association lists (`List (key × value)`); `lookupA`,
  `insertA` and `eraseA` mirror map read, write and delete.  Go map
  iteration order is replaced by list order (no claim below depends on
  iteration order).
* In-place mutation becomes value passing: every operation takes a
  `Registry` value and returns the updated `Registry` together with the
  optional error, mirroring the pointer receiver plus `error` return.
* `reflect.Type` is an abstract type parameter `Ty`; entry values are an
  abstract parameter `Val`.  The `access.Info` collaborator is an explicit
  parameter `info : Ty → Namedness × Accessibility` of the operations that
  consult it.
* Error values are compared by sentinel kind (the package compares errors
  with errors.Is and wraps only textual context); the sentinel declarations
  themselves are not among the provided sources, so `Err` lists the
  taxonomy used by the operation files.
* The WithRegistry redirect option targets a second registry; the claims
  below are settled on the non-redirect paths, so the embedding models a
  single registry and omits the withRegistry call option (no modelled
  option ever sets it, hence the redirect branch of each public operation,
  which is guarded by callOptions.withRegistry being non-nil, is inert and
  is omitted).  The mutex is also omitted: all operations here are whole,
  already-serialized steps.
-/

namespace Reg

/-- Accessibility levels of the access package, in Go declaration (iota)
order: undefined, not accessible, accessible inside package, accessible
everywhere. -/
inductive Accessibility where
  | undefined
  | notAccessible
  | insidePackage
  | everywhere
deriving DecidableEq, Repr

/-- Numeric value of an accessibility level (the Go constants are ints
produced by iota, and the operations compare them numerically). -/
def Accessibility.toNat : Accessibility → Nat
  | .undefined => 0
  | .notAccessible => 1
  | .insidePackage => 2
  | .everywhere => 3

/-- Namedness levels of the access package, in Go declaration (iota)
order: undefined, anonymous type, named type. -/
inductive Namedness where
  | undefined
  | anonymous
  | named
deriving DecidableEq, Repr

/-- Numeric value of a namedness level. -/
def Namedness.toNat : Namedness → Nat
  | .undefined => 0
  | .anonymous => 1
  | .named => 2

/-- Go max on two accessibility levels (they are ints in Go). -/
def accMax (a b : Accessibility) : Accessibility :=
  if a.toNat < b.toNat then b else a

/-- Go max on two namedness levels. -/
def namMax (a b : Namedness) : Namedness :=
  if a.toNat < b.toNat then b else a

/-- The error taxonomy of the package.  The registry operations wrap these
sentinels with textual context only; callers compare by kind
(errors.Is), so errors are modelled as bare kinds. -/
inductive Err where
  | notFound
  | notUniqueType
  | notUniqueName
  | notSupported
  | accessibilityTooLow
  | namednessTooLow
  | badOption
deriving DecidableEq, Repr

/-- Association-list lookup, mirroring a Go map read `m[k]` with its
presence bit. -/
def lookupA {α β : Type} [DecidableEq α] : List (α × β) → α → Option β
  | [], _ => none
  | (k, v) :: rest, a => if k = a then some v else lookupA rest a

/-- Association-list write, mirroring a Go map write `m[k] = v`: replaces
the binding when the key is present, otherwise appends it. -/
def insertA {α β : Type} [DecidableEq α] : List (α × β) → α → β → List (α × β)
  | [], a, b => [(a, b)]
  | (k, v) :: rest, a, b =>
    if k = a then (a, b) :: rest else (k, v) :: insertA rest a b

/-- Association-list delete, mirroring Go `delete(m, k)`. -/
def eraseA {α β : Type} [DecidableEq α] : List (α × β) → α → List (α × β)
  | [], _ => []
  | (k, v) :: rest, a => if k = a then rest else (k, v) :: eraseA rest a

/-- initOpts of registry_types.go: the construction-completed flag plus
the explicitly-set markers recorded during construction. -/
structure InitOpts where
  complete : Bool := false
  uniqueTypesSet : Bool := false
  uniqueNamesSet : Bool := false
  accessibilitySet : Bool := false
  namednessSet : Bool := false
deriving DecidableEq, Repr

/-- registryConfig of registry_types.go (persistent, registry-scoped
settings).  Field defaults are the Go zero values; NewRegistry overrides
accessibility with insidePackage. -/
structure RegistryConfig where
  init : InitOpts := {}
  defaultName : String := ""
  uniqueTypes : Bool := false
  uniqueNames : Bool := false
  accessibility : Accessibility := .undefined
  namedness : Namedness := .undefined
deriving DecidableEq, Repr

/-- callOptions of registry_types.go (ephemeral, per-call state).  The
withRegistry redirect target is omitted: see the module comment. -/
structure CallOptions where
  name : String := ""
  uniqueName : Bool := false
  uniqueType : Bool := false
  accessibility : Accessibility := .undefined
  namedness : Namedness := .undefined
deriving DecidableEq, Repr

/-- The zero callOptions value (what `new(callOptions)` produces). -/
def emptyCallOptions : CallOptions := {}

/-- The registry: the store (type to name to value), the persistent
config, and the nil-able per-call options pointer. -/
structure Registry (Ty Val : Type) where
  store : List (Ty × List (String × Val)) := []
  config : RegistryConfig := {}
  callOptions : Option CallOptions := none
deriving DecidableEq, Repr

variable {Ty Val : Type} [DecidableEq Ty]

/-- ensureCallOpts of registry_types.go: allocate the callOptions if the
pointer is nil. -/
def Registry.ensureCallOpts (r : Registry Ty Val) : Registry Ty Val :=
  match r.callOptions with
  | none => { r with callOptions := some emptyCallOptions }
  | some _ => r

/-- dropCallOpts of registry_types.go: reset the callOptions pointer. -/
def Registry.dropCallOpts (r : Registry Ty Val) : Registry Ty Val :=
  { r with callOptions := none }

/-- The call options an operation reads after ensureCallOpts (reading
through the pointer; `getD` supplies the freshly allocated zero value,
which coincides with what ensureCallOpts would have stored). -/
def Registry.co (r : Registry Ty Val) : CallOptions :=
  r.callOptions.getD emptyCallOptions

/-- Write one field of the (already ensured) call options. -/
def Registry.setCO (r : Registry Ty Val) (f : CallOptions → CallOptions) :
    Registry Ty Val :=
  { r with callOptions := some (f r.co) }

/-- valueOrDefault of the helpers file, at type string: returns the
default when the value is the zero string. -/
def valueOrDefaultStr (val dflt : String) : String :=
  if val = "" then dflt else val

/-- Modelled from the spec: the DefaultName constant referenced by the
WithName option implementation is not among the provided sources; the
spec and package documentation state that the default instance name is
the empty string. -/
def DefaultName : String := ""

/-- The name an operation resolves: the call-scope name if non-empty,
else the config default name. -/
def resolvedName (r : Registry Ty Val) : String :=
  valueOrDefaultStr r.co.name r.config.defaultName

/-- checkBadOpt of option_impls.go: conflict detection between a clone
source and the destination under construction.  Uniqueness flags conflict
only when explicitly set on both sides with different values;
accessibility and namedness conflict whenever both values are defined and
differ (regardless of the explicitly-set markers). -/
def checkBadOpt (src dest : Registry Ty Val) : Option Err :=
  if dest.config.init.uniqueTypesSet ∧ src.config.init.uniqueTypesSet ∧
      dest.config.uniqueTypes ≠ src.config.uniqueTypes then some .badOption
  else if dest.config.init.uniqueNamesSet ∧ src.config.init.uniqueNamesSet ∧
      dest.config.uniqueNames ≠ src.config.uniqueNames then some .badOption
  else if dest.config.accessibility ≠ .undefined ∧
      src.config.accessibility ≠ .undefined ∧
      dest.config.accessibility ≠ src.config.accessibility then some .badOption
  else if dest.config.namedness ≠ .undefined ∧
      src.config.namedness ≠ .undefined ∧
      dest.config.namedness ≠ src.config.namedness then some .badOption
  else none

/-- Inner loop of cloneEntries (option_impls.go): copy the instances of
one type into the destination inner map, applying the name filter and the
default-name remap. -/
def cloneInner (destDefault srcDefault nameFilter : String)
    (instances : List (String × Val)) (acc : List (String × Val)) :
    List (String × Val) :=
  instances.foldl (fun m nv =>
    if nameFilter ≠ "" then
      if nv.1 = nameFilter then insertA m nv.1 nv.2 else m
    else if destDefault ≠ srcDefault ∧ nv.1 = srcDefault then
      insertA m destDefault nv.2
    else insertA m nv.1 nv.2) acc

/-- cloneEntries of option_impls.go: copy entries of src into dest,
filtering by src's current call options (namedness, accessibility,
uniqueType, name) and remapping the source default name to the
destination default name.  The source guards the accessibility and
namedness options with valueOrDefault against their zero values, which is
the identity (the zero value IS undefined), so they are read directly
here.  Note that the destination inner map for a kept type is created
before the name filter runs, exactly as in the source. -/
def cloneEntries (info : Ty → Namedness × Accessibility)
    (src dest : Registry Ty Val) : Registry Ty Val :=
  let opts := src.callOptions.getD emptyCallOptions
  let accessibilityOption := opts.accessibility
  let namednessOption := opts.namedness
  let uniqueType := opts.uniqueType
  let nameFilter := opts.name
  let newStore := src.store.foldl
    (fun (st : List (Ty × List (String × Val))) (rtInst : Ty × List (String × Val)) =>
    if namednessOption.toNat + accessibilityOption.toNat > 0 ∧
        ((accessibilityOption ≠ .undefined ∧ (info rtInst.1).2 ≠ accessibilityOption) ∨
          (namednessOption ≠ .undefined ∧ (info rtInst.1).1 ≠ namednessOption)) then st
    else if rtInst.2.length > 1 ∧ uniqueType then st
    else
      insertA st rtInst.1
        (cloneInner dest.config.defaultName src.config.defaultName nameFilter
          rtInst.2 ((lookupA st rtInst.1).getD []))) dest.store
  { dest with store := newStore }

/-- The options of the package (the complete variant), one constructor
per With... option implementation of option_impls.go.  The WithRegistry
redirect option is omitted (see the module comment). -/
inductive ROpt (Ty Val : Type) where
  | withName (n : String)
  | withUniqueType
  | withUniqueName
  | withAccessibility (level : Accessibility)
  | withNamedness (n : Namedness)
  | withCloneEntries (src : Registry Ty Val)
  | withCloneConfig (src : Registry Ty Val)
  | withCloneRegistry (src : Registry Ty Val)
deriving DecidableEq

/-- 64-bit math.MaxInt. -/
def maxI : Int := 9223372036854775807

/-- 64-bit math.MinInt. -/
def minI : Int := -9223372036854775808

/-- priorityUndefined: iota 0 in the priority const block. -/
def prioUndefined : Int := 0

/-- prioritySecondHighest = math.MaxInt - 2 (iota 2). -/
def prioSecondHighest : Int := maxI - 2

/-- priorityLowest = math.MinInt + 4 (iota 4 when its line is reached). -/
def prioLowest : Int := minI + 4

/-- prioritySecondLowest = math.MinInt + 5. -/
def prioSecondLowest : Int := minI + 5

/-- priorityThirdLowest = math.MinInt + 6. -/
def prioThirdLowest : Int := minI + 6

/-- The priority each option constructor receives in option_impls.go
(newOption gives the zero priority; newOptionWithPriority the listed
one). -/
def prio : ROpt Ty Val → Int
  | .withName _ => prioUndefined
  | .withUniqueType => prioUndefined
  | .withUniqueName => prioUndefined
  | .withAccessibility _ => prioSecondHighest
  | .withNamedness _ => prioSecondHighest
  | .withCloneEntries _ => prioSecondLowest
  | .withCloneConfig _ => prioThirdLowest
  | .withCloneRegistry _ => prioLowest

/-- Stable insertion step for the descending-priority sort: the new
element goes before the first element of strictly smaller priority, so
elements of equal priority keep their original relative order. -/
def insertDesc (x : ROpt Ty Val) : List (ROpt Ty Val) → List (ROpt Ty Val)
  | [] => [x]
  | a :: as => if prio a ≤ prio x then x :: a :: as else a :: insertDesc x as

/-- The stable descending-priority sort used by applyOptions
(slices.SortStableFunc with the optionSorter comparator). -/
def sortOpts : List (ROpt Ty Val) → List (ROpt Ty Val)
  | [] => []
  | x :: xs => insertDesc x (sortOpts xs)

/-- The effect of a single option on a registry (the closures of
option_impls.go): construction-time branches mutate the persistent config
and its explicitly-set markers, call-time branches mutate the call
options; the clone options run only during construction. -/
def applyOpt (info : Ty → Namedness × Accessibility) (o : ROpt Ty Val)
    (r : Registry Ty Val) : Registry Ty Val × Option Err :=
  match o with
  | .withName n =>
    if r.config.init.complete = false then
      if r.config.defaultName ≠ DefaultName then (r, some .badOption)
      else ({ r with config := { r.config with defaultName := n } }, none)
    else (r.setCO (fun c => { c with name := n }), none)
  | .withUniqueType =>
    if r.config.init.complete = false then
      if r.config.init.uniqueTypesSet then (r, some .badOption)
      else
        ({ r with config :=
            { r.config with
                uniqueTypes := true,
                init := { r.config.init with uniqueTypesSet := true } } }, none)
    else (r.setCO (fun c => { c with uniqueType := true }), none)
  | .withUniqueName =>
    if r.config.init.complete = false then
      if r.config.init.uniqueNamesSet then (r, some .badOption)
      else
        ({ r with config :=
            { r.config with
                uniqueNames := true,
                init := { r.config.init with uniqueNamesSet := true } } }, none)
    else (r.setCO (fun c => { c with uniqueName := true }), none)
  | .withAccessibility level =>
    if r.config.init.complete = false then
      if r.config.init.accessibilitySet then (r, some .badOption)
      else
        ({ r with config :=
            { r.config with
                accessibility := level,
                init := { r.config.init with accessibilitySet := true } } }, none)
    else (r.setCO (fun c => { c with accessibility := level }), none)
  | .withNamedness n =>
    if r.config.init.complete = false then
      if r.config.init.namednessSet then (r, some .badOption)
      else
        ({ r with config :=
            { r.config with
                namedness := n,
                init := { r.config.init with namednessSet := true } } }, none)
    else (r.setCO (fun c => { c with namedness := n }), none)
  | .withCloneEntries src =>
    if r.config.init.complete then (r, some .notSupported)
    else
      match checkBadOpt src r with
      | some e => (r, some e)
      | none => (cloneEntries info src r, none)
  | .withCloneConfig src =>
    if r.config.init.complete then (r, some .notSupported)
    else
      match checkBadOpt src r with
      | some e => (r, some e)
      | none => ({ r with config := src.config }, none)
  | .withCloneRegistry src =>
    if r.config.init.complete then (r, some .notSupported)
    else
      match checkBadOpt src r with
      | some e => (r, some e)
      | none => (cloneEntries info src { r with config := src.config }, none)

/-- The application loop of applyOptions: apply each option in order,
dropping the call options and stopping at the first error. -/
def applyList (info : Ty → Namedness × Accessibility) :
    Registry Ty Val → List (ROpt Ty Val) → Registry Ty Val × Option Err
  | r, [] => (r, none)
  | r, o :: os =>
    match applyOpt info o r with
    | (r1, none) => applyList info r1 os
    | (r1, some e) => (r1.dropCallOpts, some e)

/-- applyOptions of the option-engine file: ensureCallOpts, early return
on an empty list, stable descending sort, then the application loop. -/
def applyOptions (info : Ty → Namedness × Accessibility)
    (r : Registry Ty Val) (opts : List (ROpt Ty Val)) :
    Registry Ty Val × Option Err :=
  let r1 := r.ensureCallOpts
  match opts with
  | [] => (r1, none)
  | _ => applyList info r1 (sortOpts opts)

/-- setType of the operations file: resolve the name and the effective
uniqueness flags (config OR call scope), check accessibility and
namedness floors (max of config and call scope), create the inner map if
absent, enforce type then name uniqueness, store the value.  It does not
drop the call options. -/
def setType (info : Ty → Namedness × Accessibility)
    (r : Registry Ty Val) (t : Ty) (v : Val) : Registry Ty Val × Option Err :=
  let r := r.ensureCallOpts
  let co := r.co
  let cfg := r.config
  let name := valueOrDefaultStr co.name cfg.defaultName
  let typeMustBeUnique := cfg.uniqueTypes || co.uniqueType
  let nameMustBeUnique := cfg.uniqueNames || co.uniqueName
  if (info t).2.toNat < (accMax cfg.accessibility co.accessibility).toNat then
    (r, some .accessibilityTooLow)
  else if (info t).1.toNat < (namMax cfg.namedness co.namedness).toNat then
    (r, some .namednessTooLow)
  else
    let r := if (lookupA r.store t).isNone then
      { r with store := insertA r.store t [] } else r
    if typeMustBeUnique = true ∧ ((lookupA r.store t).getD []).length ≠ 0 then
      (r, some .notUniqueType)
    else if (lookupA ((lookupA r.store t).getD []) name).isSome ∧
        nameMustBeUnique = true then
      (r, some .notUniqueName)
    else
      ({ r with store :=
          insertA r.store t (insertA ((lookupA r.store t).getD []) name v) },
        none)

/-- getType of the operations file: reject call-scope name uniqueness,
resolve the name, look the type up, enforce call-or-config type
uniqueness against multiple entries, look the name up.  Read-only. -/
def getType (r : Registry Ty Val) (t : Ty) : Except Err Val :=
  let r := r.ensureCallOpts
  let co := r.co
  let cfg := r.config
  if co.uniqueName then .error .notSupported
  else
    let typeMustBeUnique := cfg.uniqueTypes || co.uniqueType
    let name := valueOrDefaultStr co.name cfg.defaultName
    match lookupA r.store t with
    | none => .error .notFound
    | some instances =>
      if typeMustBeUnique = true ∧ instances.length > 1 then
        .error .notUniqueType
      else
        match lookupA instances name with
        | none => .error .notFound
        | some v => .ok v

/-- unsetType of the operations file: type uniqueness here comes from the
call scope only; resolve the name, fail notFound or notUniqueType as
appropriate, delete the entry, and delete the whole type key when it was
the last entry. -/
def unsetType (r : Registry Ty Val) (t : Ty) : Registry Ty Val × Option Err :=
  let r := r.ensureCallOpts
  let co := r.co
  let cfg := r.config
  let typeMustBeUnique := co.uniqueType
  let name := valueOrDefaultStr co.name cfg.defaultName
  match lookupA r.store t with
  | none => (r, some .notFound)
  | some instances =>
    if typeMustBeUnique = true ∧ instances.length > 1 then
      (r, some .notUniqueType)
    else if (lookupA instances name).isNone then (r, some .notFound)
    else if instances.length > 1 then
      ({ r with store := insertA r.store t (eraseA instances name) }, none)
    else ({ r with store := eraseA r.store t }, none)

/-- getAll of the operations file: clone this registry's entries into a
throwaway destination carrying a clone of the config (so the
name-filtering and remapping of cloneEntries implement the call-option
filters), return the snapshot, and drop the call options. -/
def getAllFn (info : Ty → Namedness × Accessibility) (r : Registry Ty Val) :
    List (Ty × List (String × Val)) × Registry Ty Val :=
  let stub : Registry Ty Val := { store := [], config := r.config, callOptions := none }
  ((cloneEntries info r stub).store, r.dropCallOpts)

/-- Public Set: apply the options and run setType.  Unlike Get, GetAll
and Unset, Set does not drop the call options on its own exit paths (its
error-free return and setType's error returns leave them in place; only
applyOptions' internal error path drops them). -/
def setOp (info : Ty → Namedness × Accessibility) (r : Registry Ty Val)
    (t : Ty) (v : Val) (opts : List (ROpt Ty Val)) :
    Registry Ty Val × Option Err :=
  match applyOptions info r opts with
  | (r1, some e) => (r1, some e)
  | (r1, none) => setType info r1 t v

/-- Public Get: apply the options, reject call-scope name uniqueness,
run getType, and drop the call options (the deferred cleanup) on every
exit path. -/
def getOp (info : Ty → Namedness × Accessibility) (r : Registry Ty Val)
    (t : Ty) (opts : List (ROpt Ty Val)) :
    Registry Ty Val × Except Err Val :=
  match applyOptions info r opts with
  | (r1, some e) => (r1, .error e)
  | (r1, none) =>
    if r1.co.uniqueName then (r1.dropCallOpts, .error .notSupported)
    else (r1.dropCallOpts, getType r1 t)

/-- Public GetAll: apply the options, reject call-scope name uniqueness,
take the filtered snapshot, and drop the call options on every exit
path. -/
def getAllOp (info : Ty → Namedness × Accessibility) (r : Registry Ty Val)
    (opts : List (ROpt Ty Val)) :
    Registry Ty Val × Except Err (List (Ty × List (String × Val))) :=
  match applyOptions info r opts with
  | (r1, some e) => (r1, .error e)
  | (r1, none) =>
    if r1.co.uniqueName then (r1.dropCallOpts, .error .notSupported)
    else
      let (snap, r2) := getAllFn info r1
      (r2.dropCallOpts, .ok snap)

/-- Public Unset: apply the options, reject call-scope name uniqueness,
run unsetType, and drop the call options (the deferred cleanup) on every
exit path. -/
def unsetOp (info : Ty → Namedness × Accessibility) (r : Registry Ty Val)
    (t : Ty) (opts : List (ROpt Ty Val)) : Registry Ty Val × Option Err :=
  match applyOptions info r opts with
  | (r1, some e) => (r1, some e)
  | (r1, none) =>
    if r1.co.uniqueName then (r1.dropCallOpts, some .notSupported)
    else
      let (r2, e) := unsetType r1 t
      (r2.dropCallOpts, e)

/-- NewRegistry: start from the empty store with the default config
(accessibility floor insidePackage, namedness undefined), apply the
options, and mark construction complete.  (The operations file writes
the completion flag as config.initComplete while the types file and
option implementations carry it as config.init.complete; the two names
denote the same construction-completed flag and it is modelled as
init.complete.) -/
def newRegistry (info : Ty → Namedness × Accessibility)
    (opts : List (ROpt Ty Val)) : Except Err (Registry Ty Val) :=
  let r0 : Registry Ty Val :=
    { store := [],
      config := { accessibility := .insidePackage, namedness := .undefined },
      callOptions := none }
  match applyOptions info r0 opts with
  | (_, some e) => .error e
  | (r1, none) =>
    .ok { r1 with config :=
      { r1.config with init := { r1.config.init with complete := true } } }

mutual
/-- The shape of a reflect.Type as consumed by the access package.
`named` stands for a type with a non-empty reflect Name(); its pkgPath is
empty exactly for predeclared types.  The composite constructors are the
unnamed kinds the classifier walks (a func carries its parameter and
result types, an interface the func types of its methods); their child
collections are the mutually defined GoTypeList. -/
inductive GoType where
  | named (name : String) (pkgPath : String)
  | ptr (elem : GoType)
  | slice (elem : GoType)
  | array (elem : GoType)
  | chanT (elem : GoType)
  | mapT (key : GoType) (elem : GoType)
  | funcT (ins : GoTypeList) (outs : GoTypeList)
  | structT (fields : GoTypeList)
  | interfaceT (methods : GoTypeList)

/-- A list of GoType children (mutually inductive with GoType so that
equality and recursion behave structurally). -/
inductive GoTypeList where
  | nil
  | cons (head : GoType) (tail : GoTypeList)
end

end Reg

deriving instance DecidableEq for Reg.GoType, Reg.GoTypeList

namespace Reg

/-- isExported of access.go: non-empty name whose first rune satisfies
the host upper-case test.  The rune classifier itself (unicode.IsUpper)
is kept abstract as the parameter isUp: the theorems below hold for every
choice of it. -/
def isExported (isUp : Char → Bool) (name : String) : Bool :=
  match name.toList with
  | [] => false
  | c :: _ => isUp c

mutual
/-- accessibleEverywhere of access.go.  The seen set is threaded as the
list of enclosing types: on the tree-shaped values of GoType this agrees
with the source's shared memo map, whose extra entries only ever record
types that already evaluated to true (a false evaluation aborts the whole
computation), so a membership answer of true coincides with
re-evaluation.  The source's leading pointer-deref loop coincides with
the Pointer arm of its own switch and is expressed through the ptr arm
here.  Named types decide by predeclaredness or exportedness without
recursing; unnamed composites require every component accessible. -/
def accessibleEverywhere (isUp : Char → Bool) (t : GoType) (seen : List GoType) : Bool :=
  if t ∈ seen then true
  else
    match t with
    | .named n p => if p = "" then true else isExported isUp n
    | .ptr e => accessibleEverywhere isUp e (t :: seen)
    | .slice e => accessibleEverywhere isUp e (t :: seen)
    | .array e => accessibleEverywhere isUp e (t :: seen)
    | .chanT e => accessibleEverywhere isUp e (t :: seen)
    | .mapT k v =>
      accessibleEverywhere isUp k (t :: seen) &&
        accessibleEverywhere isUp v (t :: seen)
    | .funcT ins outs =>
      accessibleAll isUp ins (t :: seen) && accessibleAll isUp outs (t :: seen)
    | .structT fields => accessibleAll isUp fields (t :: seen)
    | .interfaceT ms => accessibleAll isUp ms (t :: seen)

/-- The per-component loop of accessibleEverywhere over a child list
(each Go loop returns false as soon as one component fails). -/
def accessibleAll (isUp : Char → Bool) (l : GoTypeList) (seen : List GoType) : Bool :=
  match l with
  | .nil => true
  | .cons h tl => accessibleEverywhere isUp h seen && accessibleAll isUp tl seen
end

mutual
/-- The named types reachable through the structure of a type without
entering named types (the collection the spec's accessibility rule
quantifies over), as (name, pkgPath) pairs. -/
def reachableNamed : GoType → List (String × String)
  | .named n p => [(n, p)]
  | .ptr e => reachableNamed e
  | .slice e => reachableNamed e
  | .array e => reachableNamed e
  | .chanT e => reachableNamed e
  | .mapT k v => reachableNamed k ++ reachableNamed v
  | .funcT ins outs => reachableNamedList ins ++ reachableNamedList outs
  | .structT fields => reachableNamedList fields
  | .interfaceT ms => reachableNamedList ms

/-- reachableNamed over a child list. -/
def reachableNamedList : GoTypeList → List (String × String)
  | .nil => []
  | .cons h tl => reachableNamed h ++ reachableNamedList tl
end

/-- The spec's accessibility rule, stated as the spec words it: every
named type reachable through the structure is predeclared or exported
(for a named type itself this is exactly the exported-or-predeclared
test). -/
def specAccessibleEverywhere (isUp : Char → Bool) (t : GoType) : Bool :=
  (reachableNamed t).all fun np => np.2 == "" || isExported isUp np.1

/-- The spec's accessibility rule over a child list. -/
def specAccessibleList (isUp : Char → Bool) (l : GoTypeList) : Bool :=
  (reachableNamedList l).all fun np => np.2 == "" || isExported isUp np.1

/-- A store satisfies the shape invariant when every present type key
carries at least one named entry. -/
abbrev storeWF {Ty Val : Type} (s : List (Ty × List (String × Val))) : Prop :=
  ∀ p ∈ s, p.2 ≠ ([] : List (String × Val))

/-- Order rank of an option for the application-order statement: ordinary
modifiers first, then clone-config, clone-entries, clone-registry. -/
def rank : ROpt Ty Val → Nat
  | .withCloneConfig _ => 1
  | .withCloneEntries _ => 2
  | .withCloneRegistry _ => 3
  | _ => 0

/-- Classifier instance used by the concrete witnesses: every type id is
named and accessible everywhere. -/
def info0 : Nat → Namedness × Accessibility := fun _ => (.named, .everywhere)

/-- The registry value NewRegistry() with no options produces (store
empty, default config, construction complete, the call options allocated
by applyOptions still present). -/
def freshReg : Registry Nat Nat where
  store := []
  config := { init := { complete := true }, accessibility := .insidePackage, namedness := .undefined }
  callOptions := some emptyCallOptions

/-- The registry value NewRegistry(WithAccessibility(AccessibleEverywhere))
produces. -/
def srcEverywhere : Registry Nat Nat where
  store := []
  config := { init := { complete := true, accessibilitySet := true }, accessibility := .everywhere, namedness := .undefined }
  callOptions := some emptyCallOptions

/-- The option list a pure name option produces: nothing, or one WithName. -/
def nameOpts {Ty Val : Type} : Option String → List (ROpt Ty Val)
  | none => []
  | some n => [.withName n]

/-- A config with the construction-complete flag set (what NewRegistry
performs after applying the options). -/
def completeCfg (c : RegistryConfig) : RegistryConfig :=
  { c with init := { c.init with complete := true } }

/-- A quiescent registry holding one default-named entry for type 0. -/
def regOne : Registry Nat Nat where
  store := [(0, [("", 5)])]
  config := freshReg.config
  callOptions := none

/-- regOne with the persistent unique-types flag enabled. -/
def regUT : Registry Nat Nat where
  store := [(0, [("", 5)])]
  config := { freshReg.config with uniqueTypes := true }
  callOptions := none

/-- regOne with the persistent unique-names flag enabled. -/
def regUN : Registry Nat Nat where
  store := [(0, [("", 5)])]
  config := { freshReg.config with uniqueNames := true }
  callOptions := none

/-- The registry state Set(7, WithName "x") leaves behind on freshReg
(note the call options are still populated: Set does not drop them). -/
def regAfterSet : Registry Nat Nat where
  store := [(0, [("x", 7)])]
  config := freshReg.config
  callOptions := some { emptyCallOptions with name := "x" }

/-! Helper lemmas about the association-list primitives and the registry
state helpers, shared by the claim theorems below. -/

theorem lookupA_insertA_self {α β : Type} [DecidableEq α]
    (l : List (α × β)) (a : α) (b : β) : lookupA (insertA l a b) a = some b := by
  induction l with
  | nil => simp [insertA, lookupA]
  | cons p rest ih =>
    by_cases h : p.1 = a
    · simp [insertA, lookupA, h]
    · simp [insertA, lookupA, h, ih]

theorem lookupA_insertA_ne {α β : Type} [DecidableEq α]
    (l : List (α × β)) (a k : α) (b : β) (hne : a ≠ k) :
    lookupA (insertA l a b) k = lookupA l k := by
  induction l with
  | nil => simp [insertA, lookupA, hne]
  | cons p rest ih =>
    by_cases h : p.1 = a
    · simp [insertA, lookupA, h, hne]
    · simp [insertA, lookupA, h, ih]

theorem insertA_insertA {α β : Type} [DecidableEq α]
    (l : List (α × β)) (a : α) (b c : β) :
    insertA (insertA l a b) a c = insertA l a c := by
  induction l with
  | nil => simp [insertA]
  | cons p rest ih =>
    by_cases h : p.1 = a
    · simp [insertA, h]
    · simp [insertA, h, ih]

theorem insertA_ne_nil {α β : Type} [DecidableEq α]
    (l : List (α × β)) (a : α) (b : β) : insertA l a b ≠ [] := by
  cases l with
  | nil => simp [insertA]
  | cons p rest => by_cases h : p.1 = a <;> simp [insertA, h]

theorem mem_insertA {α β : Type} [DecidableEq α]
    {l : List (α × β)} {a : α} {b : β} {p : α × β} (hp : p ∈ insertA l a b) :
    p = (a, b) ∨ p ∈ l := by
  induction l with
  | nil => simpa [insertA] using hp
  | cons q rest ih =>
    by_cases h : q.1 = a
    · simp only [insertA, h, if_pos rfl] at hp
      rcases List.mem_cons.1 hp with h1 | h1
      · exact Or.inl h1
      · exact Or.inr (List.mem_cons_of_mem _ h1)
    · simp only [insertA, if_neg h] at hp
      rcases List.mem_cons.1 hp with h1 | h1
      · exact Or.inr (h1 ▸ List.mem_cons_self _ _)
      · rcases ih h1 with h2 | h2
        · exact Or.inl h2
        · exact Or.inr (List.mem_cons_of_mem _ h2)

theorem length_insertA_present {α β : Type} [DecidableEq α]
    (l : List (α × β)) (a : α) (b : β) (h : (lookupA l a).isSome) :
    (insertA l a b).length = l.length := by
  induction l with
  | nil => simp [lookupA] at h
  | cons p rest ih =>
    by_cases hp : p.1 = a
    · simp [insertA, hp]
    · simp only [lookupA, hp, if_neg hp] at h
      simp [insertA, hp, ih h]

theorem mem_eraseA {α β : Type} [DecidableEq α]
    {l : List (α × β)} {a : α} {p : α × β} (hp : p ∈ eraseA l a) : p ∈ l := by
  induction l with
  | nil => simpa [eraseA] using hp
  | cons q rest ih =>
    by_cases h : q.1 = a
    · simp only [eraseA, if_pos h] at hp
      exact List.mem_cons_of_mem _ hp
    · simp only [eraseA, if_neg h] at hp
      rcases List.mem_cons.1 hp with h1 | h1
      · exact h1 ▸ List.mem_cons_self _ _
      · exact List.mem_cons_of_mem _ (ih h1)

theorem mem_keys_of_lookupA {α β : Type} [DecidableEq α]
    {l : List (α × β)} {a : α} {b : β} (h : lookupA l a = some b) :
    a ∈ l.map Prod.fst := by
  induction l with
  | nil => simp [lookupA] at h
  | cons p rest ih =>
    by_cases hp : p.1 = a
    · exact List.mem_map.2 ⟨p, List.mem_cons_self _ _, hp⟩
    · simp only [lookupA, if_neg hp] at h
      exact List.mem_cons_of_mem _ (ih h)

theorem lookupA_eraseA_self {α β : Type} [DecidableEq α]
    (l : List (α × β)) (a : α) (hnd : (l.map Prod.fst).Nodup) :
    lookupA (eraseA l a) a = none := by
  induction l with
  | nil => simp [eraseA, lookupA]
  | cons p rest ih =>
    simp only [List.map_cons, List.nodup_cons] at hnd
    by_cases h : p.1 = a
    · subst h
      simp only [eraseA, if_pos rfl]
      cases hfind : lookupA rest p.1 with
      | none => exact hfind
      | some b => exact absurd (mem_keys_of_lookupA hfind) hnd.1
    · simp [eraseA, h, lookupA, ih hnd.2]

/-! State-shape helper lemmas about Registry operations. -/

theorem ensure_config {Ty Val : Type} (r : Registry Ty Val) :
    r.ensureCallOpts.config = r.config := by
  cases h : r.callOptions <;> simp [Registry.ensureCallOpts, h]

theorem ensure_store {Ty Val : Type} (r : Registry Ty Val) :
    r.ensureCallOpts.store = r.store := by
  cases h : r.callOptions <;> simp [Registry.ensureCallOpts, h]

theorem ensure_co {Ty Val : Type} (r : Registry Ty Val) :
    r.ensureCallOpts.co = r.co := by
  cases h : r.callOptions <;> simp [Registry.ensureCallOpts, Registry.co, h]

theorem setCO_store {Ty Val : Type} (r : Registry Ty Val)
    (f : CallOptions → CallOptions) : (r.setCO f).store = r.store := rfl

theorem setCO_config {Ty Val : Type} (r : Registry Ty Val)
    (f : CallOptions → CallOptions) : (r.setCO f).config = r.config := rfl

theorem drop_store {Ty Val : Type} (r : Registry Ty Val) :
    r.dropCallOpts.store = r.store := rfl

theorem drop_config {Ty Val : Type} (r : Registry Ty Val) :
    r.dropCallOpts.config = r.config := rfl

theorem cloneEntries_config {Ty Val : Type} [DecidableEq Ty]
    (info : Ty → Namedness × Accessibility) (src dest : Registry Ty Val) :
    (cloneEntries info src dest).config = dest.config := rfl

theorem cloneEntries_callOptions {Ty Val : Type} [DecidableEq Ty]
    (info : Ty → Namedness × Accessibility) (src dest : Registry Ty Val) :
    (cloneEntries info src dest).callOptions = dest.callOptions := rfl

/-- C1.  Call-scope state is NOT cleared by Set: the claim fails on the
code.  On the concrete input, Set with a name option succeeds and leaves
the call options populated with that name; a subsequent Get with no name
option then observes the previous call name (it returns the value stored
under "x" although the registry default name is ""), while the same Get
on the registry with its call state cleared reports not-found.  Get,
GetAll and Unset do clear the call state; Set does not. -/
theorem C1_set_leaves_call_state :
    (setOp info0 freshReg 0 7 [ROpt.withName "x"]).2 = none ∧
    (setOp info0 freshReg 0 7 [ROpt.withName "x"]).1.callOptions =
      some { emptyCallOptions with name := "x" } ∧
    (getOp info0 (setOp info0 freshReg 0 7 [ROpt.withName "x"]).1 0 []).2 =
      .ok 7 ∧
    (getOp info0 ((setOp info0 freshReg 0 7 [ROpt.withName "x"]).1.dropCallOpts)
      0 []).2 = .error .notFound :=
  ⟨rfl, rfl, rfl, rfl⟩

/-- C2 counterexample.  Constructing with WithCloneRegistry combined with
WithCloneEntries (same fresh source) succeeds, contradicting the claim
that every such combination fails with ErrBadOption. -/
theorem C2_counterexample :
    (newRegistry info0 [ROpt.withCloneRegistry freshReg,
      ROpt.withCloneEntries freshReg]).isOk = true := rfl

/-- C3 counterexample.  In the application order (the stable
descending-priority sort applied by applyOptions), WithCloneConfig comes
BEFORE WithCloneEntries, contradicting the claim that Clone-Config
applies after Clone-Entries. -/
theorem C3_counterexample :
    sortOpts [ROpt.withCloneEntries freshReg, ROpt.withCloneConfig freshReg] =
      [ROpt.withCloneConfig freshReg, ROpt.withCloneEntries freshReg] := rfl

/-- C4 counterexample.  Cloning config from a source whose accessibility
is AccessibleEverywhere into a destination with NO explicitly set options
fails with ErrBadOption (the destination accessibility defaults to
insidePackage and the conflict check compares values, not the
explicitly-set markers), contradicting the claim that such a
construction succeeds with the destination config equal to the
source's. -/
theorem C4_counterexample :
    newRegistry info0 [ROpt.withCloneConfig srcEverywhere] =
      .error .badOption := rfl

/-! Lemmas about the stable descending-priority sort, for the
application-order claim. -/

theorem mem_insertDesc {Ty Val : Type} {x a : ROpt Ty Val} :
    ∀ {l : List (ROpt Ty Val)}, a ∈ insertDesc x l → a = x ∨ a ∈ l := by
  intro l
  induction l with
  | nil =>
    intro h
    simp only [insertDesc, List.mem_singleton] at h
    exact Or.inl h
  | cons b bs ih =>
    intro h
    by_cases hc : prio b ≤ prio x
    · simp only [insertDesc, if_pos hc] at h
      rcases List.mem_cons.1 h with h1 | h1
      · exact Or.inl h1
      · exact Or.inr h1
    · simp only [insertDesc, if_neg hc] at h
      rcases List.mem_cons.1 h with h1 | h1
      · exact Or.inr (h1 ▸ List.mem_cons_self _ _)
      · rcases ih h1 with h2 | h2
        · exact Or.inl h2
        · exact Or.inr (List.mem_cons_of_mem _ h2)

theorem pairwise_insertDesc {Ty Val : Type} {x : ROpt Ty Val}
    {l : List (ROpt Ty Val)}
    (hl : l.Pairwise (fun a b => prio b ≤ prio a)) :
    (insertDesc x l).Pairwise (fun a b => prio b ≤ prio a) := by
  induction l with
  | nil => simp [insertDesc]
  | cons b bs ih =>
    rcases List.pairwise_cons.1 hl with ⟨hb, hbs⟩
    by_cases hc : prio b ≤ prio x
    · simp only [insertDesc, if_pos hc]
      refine List.pairwise_cons.2 ⟨?_, hl⟩
      intro c hcmem
      rcases List.mem_cons.1 hcmem with h1 | h1
      · exact h1 ▸ hc
      · exact le_trans (hb c h1) hc
    · simp only [insertDesc, if_neg hc]
      refine List.pairwise_cons.2 ⟨?_, ih hbs⟩
      intro c hcmem
      rcases mem_insertDesc hcmem with h1 | h1
      · exact h1 ▸ le_of_lt (lt_of_not_le hc)
      · exact hb c h1

theorem pairwise_sortOpts {Ty Val : Type} (l : List (ROpt Ty Val)) :
    (sortOpts l).Pairwise (fun a b => prio b ≤ prio a) := by
  induction l with
  | nil => simp [sortOpts]
  | cons x xs ih => exact pairwise_insertDesc ih

theorem rank_le_of_prio_le {Ty Val : Type} {a b : ROpt Ty Val}
    (h : prio b ≤ prio a) : rank a ≤ rank b := by
  cases a <;> cases b <;>
    simp_all [prio, rank, prioUndefined, prioSecondHighest, prioLowest,
      prioSecondLowest, prioThirdLowest, maxI, minI] <;> omega

/-- C3 amended.  For every option list and call order, the application
order (the stable descending-priority sort that applyOptions performs)
puts every ordinary modifier before every clone modifier, and orders the
clone modifiers as Clone-Config, then Clone-Entries, then Clone-Registry
last: the rank function encodes exactly this order.  (The original claim
had Clone-Config after Clone-Entries; the code applies Clone-Config
first.) -/
theorem C3_application_order {Ty Val : Type} (opts : List (ROpt Ty Val)) :
    (sortOpts opts).Pairwise (fun a b => rank a ≤ rank b) :=
  (pairwise_sortOpts opts).imp (fun h => rank_le_of_prio_le h)

/-- C2 amended.  Combining WithCloneRegistry with WithCloneEntries in
one construction is not rejected: no clone-modifier combination check
exists, so whenever the source's persistent accessibility does not
conflict with the destination default (undefined or inside-package, with
no other destination options), the construction succeeds; in particular
it never fails with ErrBadOption. -/
theorem C2_clone_registry_with_entries {Ty Val : Type} [DecidableEq Ty]
    (info : Ty → Namedness × Accessibility) (src : Registry Ty Val)
    (h : src.config.accessibility = .undefined ∨
      src.config.accessibility = .insidePackage) :
    (newRegistry info
      [ROpt.withCloneRegistry src, ROpt.withCloneEntries src]).isOk = true := by
  rcases h with h | h <;>
    simp [newRegistry, applyOptions, applyList, applyOpt, checkBadOpt,
      sortOpts, insertDesc, prio, prioLowest, prioSecondLowest, minI,
      Registry.ensureCallOpts, cloneEntries_config, h, Except.isOk,
      Except.toBool]

/-- C2 witness: the amended statement at the fresh default-configured
source registry. -/
theorem C2_clone_registry_with_entries_witness :
    (newRegistry info0
      [ROpt.withCloneRegistry freshReg, ROpt.withCloneEntries freshReg]).isOk
      = true :=
  C2_clone_registry_with_entries info0 freshReg (Or.inr rfl)

/-- C4 amended.  With no other construction options, NewRegistry with
WithCloneConfig(src) fails with ErrBadOption exactly when src's
accessibility value is defined and differs from the destination default
(accessible inside package); otherwise it succeeds and the destination
config is src's config with construction marked complete.  (The
destination's accessibility defaults to inside-package without being
explicitly set, and checkBadOpt compares accessibility and namedness by
value, not by the explicitly-set markers, which it consults only for the
uniqueness flags.) -/
theorem C4_clone_config_characterization {Ty Val : Type} [DecidableEq Ty]
    (info : Ty → Namedness × Accessibility) (src : Registry Ty Val) :
    newRegistry info [ROpt.withCloneConfig src] =
      (if src.config.accessibility ≠ .undefined ∧
          src.config.accessibility ≠ .insidePackage
        then .error .badOption
        else .ok ⟨[], completeCfg src.config, some emptyCallOptions⟩) := by
  cases hacc : src.config.accessibility <;>
    simp [newRegistry, applyOptions, applyList, applyOpt, checkBadOpt,
      sortOpts, insertDesc, Registry.ensureCallOpts, completeCfg, hacc]

/-- Closed-form description of setType: the four guards in source
order (accessibility floor, namedness floor, type uniqueness against any
pre-existing entry of the type, name uniqueness against the resolved
name), with the store untouched on every error and updated at the
resolved name on success.  The intermediate creation of an empty inner
map collapses because the error guards can only fire when the type key
already existed. -/
theorem setType_eq {Ty Val : Type} [DecidableEq Ty]
    (info : Ty → Namedness × Accessibility) (r : Registry Ty Val)
    (t : Ty) (v : Val) :
    setType info r t v =
      if (info t).2.toNat <
          (accMax r.config.accessibility r.co.accessibility).toNat then
        (r.ensureCallOpts, some .accessibilityTooLow)
      else if (info t).1.toNat <
          (namMax r.config.namedness r.co.namedness).toNat then
        (r.ensureCallOpts, some .namednessTooLow)
      else if (r.config.uniqueTypes || r.co.uniqueType) = true ∧
          ((lookupA r.store t).getD []).length ≠ 0 then
        (r.ensureCallOpts, some .notUniqueType)
      else if (lookupA ((lookupA r.store t).getD []) (resolvedName r)).isSome ∧
          (r.config.uniqueNames || r.co.uniqueName) = true then
        (r.ensureCallOpts, some .notUniqueName)
      else
        ({ r.ensureCallOpts with store := insertA r.store t (insertA ((lookupA r.store t).getD []) (resolvedName r) v) }, none) := by
  cases hm : lookupA r.store t with
  | none =>
    simp only [setType, ensure_config, ensure_co, ensure_store, resolvedName,
      hm, Option.isNone_none, if_true, Option.getD_none,
      lookupA_insertA_self, insertA_insertA]
    split_ifs with h1 h2 <;>
      simp_all [lookupA, List.length_nil, insertA_insertA, Option.isSome]
  | some m =>
    simp only [setType, ensure_config, ensure_co, ensure_store, resolvedName,
      hm, Option.isNone_some, if_false, Option.getD_some, Bool.false_eq_true]

/-- C6.  Set's uniqueness enforcement, in the guard order of setType,
once the accessibility and namedness floors pass: it fails with
ErrNotUniqueType exactly when the effective type-uniqueness flag (config
OR call scope) holds and the type already has at least one entry under
any name; it fails with ErrNotUniqueName exactly when the type check did
not fire, an entry exists under the resolved name, and the effective
name-uniqueness flag holds; otherwise it succeeds (no uniqueness
error). -/
theorem C6_set_uniqueness {Ty Val : Type} [DecidableEq Ty]
    (info : Ty → Namedness × Accessibility) (r : Registry Ty Val)
    (t : Ty) (v : Val)
    (hacc : (accMax r.config.accessibility r.co.accessibility).toNat ≤
      (info t).2.toNat)
    (hnam : (namMax r.config.namedness r.co.namedness).toNat ≤
      (info t).1.toNat) :
    ((setType info r t v).2 = some .notUniqueType ↔
      ((r.config.uniqueTypes || r.co.uniqueType) = true ∧
        ((lookupA r.store t).getD []).length ≠ 0)) ∧
    ((setType info r t v).2 = some .notUniqueName ↔
      (¬((r.config.uniqueTypes || r.co.uniqueType) = true ∧
          ((lookupA r.store t).getD []).length ≠ 0) ∧
        (lookupA ((lookupA r.store t).getD []) (resolvedName r)).isSome ∧
        (r.config.uniqueNames || r.co.uniqueName) = true)) ∧
    ((¬((r.config.uniqueTypes || r.co.uniqueType) = true ∧
          ((lookupA r.store t).getD []).length ≠ 0) ∧
      ¬((lookupA ((lookupA r.store t).getD []) (resolvedName r)).isSome ∧
          (r.config.uniqueNames || r.co.uniqueName) = true)) →
      (setType info r t v).2 = none) := by
  have h1 : ¬ ((info t).2.toNat <
      (accMax r.config.accessibility r.co.accessibility).toNat) :=
    Nat.not_lt.mpr hacc
  have h2 : ¬ ((info t).1.toNat <
      (namMax r.config.namedness r.co.namedness).toNat) :=
    Nat.not_lt.mpr hnam
  rw [setType_eq, if_neg h1, if_neg h2]
  split_ifs with hA hB <;> simp_all

/-- C6 witness: on a registry whose config requires unique types and
already holds an entry of type 0, Set of type 0 fails not-unique-type. -/
theorem C6_set_uniqueness_witness :
    (setType info0 regUT 0 2).2 = some .notUniqueType :=
  (C6_set_uniqueness info0 regUT 0 2 (by decide) (by decide)).1.mpr (by decide)

/-- C10.  Silent overwrite: with no effective type- or name-uniqueness
(all four flags clear) and the floors passing, Set on an occupied
(type, resolved-name) key succeeds, the store holds the new value under
that key (the old one is discarded), and the number of entries for the
type does not grow. -/
theorem C10_silent_overwrite {Ty Val : Type} [DecidableEq Ty]
    (info : Ty → Namedness × Accessibility) (r : Registry Ty Val)
    (t : Ty) (v old : Val)
    (hut : r.config.uniqueTypes = false) (hcut : r.co.uniqueType = false)
    (hun : r.config.uniqueNames = false) (hcun : r.co.uniqueName = false)
    (hacc : (accMax r.config.accessibility r.co.accessibility).toNat ≤
      (info t).2.toNat)
    (hnam : (namMax r.config.namedness r.co.namedness).toNat ≤
      (info t).1.toNat)
    (hold : lookupA ((lookupA r.store t).getD []) (resolvedName r) = some old) :
    (setType info r t v).2 = none ∧
    (setType info r t v).1.store = insertA r.store t (insertA ((lookupA r.store t).getD []) (resolvedName r) v) ∧
    lookupA (insertA ((lookupA r.store t).getD []) (resolvedName r) v) (resolvedName r) = some v ∧
    (insertA ((lookupA r.store t).getD []) (resolvedName r) v).length = ((lookupA r.store t).getD []).length := by
  have h1 : ¬ ((info t).2.toNat <
      (accMax r.config.accessibility r.co.accessibility).toNat) :=
    Nat.not_lt.mpr hacc
  have h2 : ¬ ((info t).1.toNat <
      (namMax r.config.namedness r.co.namedness).toNat) :=
    Nat.not_lt.mpr hnam
  rw [setType_eq, if_neg h1, if_neg h2]
  rw [if_neg (by simp [hut, hcut]), if_neg (by simp [hun, hcun])]
  refine ⟨rfl, rfl, lookupA_insertA_self _ _ _, ?_⟩
  exact length_insertA_present _ _ _ (by simp [hold])

/-- C10 witness: overwriting the default-named entry of type 0 in a
constraint-free registry succeeds in place. -/
theorem C10_silent_overwrite_witness :
    (setType info0 regOne 0 9).2 = none ∧
    (setType info0 regOne 0 9).1.store = insertA regOne.store 0 (insertA ((lookupA regOne.store 0).getD []) (resolvedName regOne) 9) ∧
    lookupA (insertA ((lookupA regOne.store 0).getD []) (resolvedName regOne) 9) (resolvedName regOne) = some 9 ∧
    (insertA ((lookupA regOne.store 0).getD []) (resolvedName regOne) 9).length = ((lookupA regOne.store 0).getD []).length :=
  C10_silent_overwrite info0 regOne 0 9 5 rfl rfl rfl rfl (by decide)
    (by decide) (by decide)

/-- Closed-form description of unsetType, mirroring its source guards:
not-found for an absent type, not-unique-type when the call-scope flag is
set against multiple entries, not-found for an absent resolved name, then
deletion of the entry or of the whole type key. -/
theorem unsetType_eq {Ty Val : Type} [DecidableEq Ty]
    (r : Registry Ty Val) (t : Ty) :
    unsetType r t =
      (match lookupA r.store t with
      | none => (r.ensureCallOpts, some .notFound)
      | some instances =>
        if r.co.uniqueType = true ∧ instances.length > 1 then
          (r.ensureCallOpts, some .notUniqueType)
        else if (lookupA instances (resolvedName r)).isNone then
          (r.ensureCallOpts, some .notFound)
        else if instances.length > 1 then
          ({ r.ensureCallOpts with store := insertA r.store t (eraseA instances (resolvedName r)) }, none)
        else ({ r.ensureCallOpts with store := eraseA r.store t }, none)) := by
  cases hm : lookupA r.store t <;>
    simp only [unsetType, ensure_co, ensure_config, ensure_store,
      resolvedName, hm]

theorem applyOpt_state {Ty Val : Type} [DecidableEq Ty]
    (info : Ty → Namedness × Accessibility) (o : ROpt Ty Val)
    (r : Registry Ty Val) (h : r.config.init.complete = true) :
    (applyOpt info o r).1.store = r.store ∧
      (applyOpt info o r).1.config = r.config := by
  cases o <;> simp [applyOpt, h, Registry.setCO]

theorem applyList_state {Ty Val : Type} [DecidableEq Ty]
    (info : Ty → Namedness × Accessibility) :
    ∀ (l : List (ROpt Ty Val)) (r : Registry Ty Val),
      r.config.init.complete = true →
      (applyList info r l).1.store = r.store ∧
        (applyList info r l).1.config = r.config := by
  intro l
  induction l with
  | nil => intro r _; exact ⟨rfl, rfl⟩
  | cons o os ih =>
    intro r h
    have ho := applyOpt_state info o r h
    cases hap : applyOpt info o r with
    | mk r1 e =>
      rw [hap] at ho
      cases e with
      | none =>
        have h1 : r1.config.init.complete = true := by rw [ho.2]; exact h
        have hrest := ih r1 h1
        simp only [applyList, hap]
        exact ⟨hrest.1.trans ho.1, hrest.2.trans ho.2⟩
      | some e =>
        simp only [applyList, hap]
        exact ⟨ho.1, ho.2⟩

theorem applyOptions_state {Ty Val : Type} [DecidableEq Ty]
    (info : Ty → Namedness × Accessibility) (r : Registry Ty Val)
    (opts : List (ROpt Ty Val)) (h : r.config.init.complete = true) :
    (applyOptions info r opts).1.store = r.store ∧
      (applyOptions info r opts).1.config = r.config := by
  have he : r.ensureCallOpts.config.init.complete = true := by
    rw [ensure_config]; exact h
  cases opts with
  | nil => exact ⟨ensure_store r, ensure_config r⟩
  | cons o os =>
    have := applyList_state info (sortOpts (o :: os)) r.ensureCallOpts he
    exact ⟨this.1.trans (ensure_store r), this.2.trans (ensure_config r)⟩

theorem setType_error_state {Ty Val : Type} [DecidableEq Ty]
    (info : Ty → Namedness × Accessibility) (r : Registry Ty Val)
    (t : Ty) (v : Val) (e : Err) (he : (setType info r t v).2 = some e) :
    (setType info r t v).1.store = r.store ∧
      (setType info r t v).1.config = r.config := by
  rw [setType_eq] at he ⊢
  split_ifs at he ⊢ <;>
    first
    | exact ⟨ensure_store r, ensure_config r⟩
    | simp_all

theorem unsetType_error_state {Ty Val : Type} [DecidableEq Ty]
    (r : Registry Ty Val) (t : Ty) (e : Err)
    (he : (unsetType r t).2 = some e) :
    (unsetType r t).1.store = r.store ∧
      (unsetType r t).1.config = r.config := by
  cases hm : lookupA r.store t with
  | none =>
    simp only [unsetType_eq, hm] at he ⊢
    exact ⟨ensure_store r, ensure_config r⟩
  | some m =>
    simp only [unsetType_eq, hm] at he ⊢
    split_ifs at he ⊢ <;>
      first
      | exact ⟨ensure_store r, ensure_config r⟩
      | simp_all

/-- C7.  Atomicity on failure for the mutating operations: whenever Set
or Unset returns an error, the persistent state (store and config) is
exactly what it was before the operation.  (For NewRegistry, a failed
construction returns no registry at all, and the clone sources are only
read; in the value-passing embedding this is immediate from the
types.) -/
theorem C7_atomicity {Ty Val : Type} [DecidableEq Ty]
    (info : Ty → Namedness × Accessibility) (r : Registry Ty Val)
    (t : Ty) (v : Val) (opts : List (ROpt Ty Val))
    (hc : r.config.init.complete = true) :
    (∀ e, (setOp info r t v opts).2 = some e →
      (setOp info r t v opts).1.store = r.store ∧
        (setOp info r t v opts).1.config = r.config) ∧
    (∀ e, (unsetOp info r t opts).2 = some e →
      (unsetOp info r t opts).1.store = r.store ∧
        (unsetOp info r t opts).1.config = r.config) := by
  have hao := applyOptions_state info r opts hc
  cases hap : applyOptions info r opts with
  | mk r1 eo =>
    rw [hap] at hao
    constructor
    · intro e he
      cases eo with
      | some e1 =>
        simp only [setOp, hap] at he ⊢
        exact hao
      | none =>
        simp only [setOp, hap] at he ⊢
        have := setType_error_state info r1 t v e he
        exact ⟨this.1.trans hao.1, this.2.trans hao.2⟩
    · intro e he
      cases eo with
      | some e1 =>
        simp only [unsetOp, hap] at he ⊢
        exact hao
      | none =>
        simp only [unsetOp, hap] at he ⊢
        by_cases hun : r1.co.uniqueName
        · simp only [hun, if_true] at he ⊢
          exact ⟨hao.1, hao.2⟩
        · simp only [hun, if_false] at he ⊢
          cases hu : unsetType r1 t with
          | mk r2 e2 =>
            simp only [hu] at he ⊢
            have := unsetType_error_state r1 t e (by rw [hu]; exact he)
            rw [hu] at this
            exact ⟨this.1.trans hao.1, this.2.trans hao.2⟩

/-- C7 witness: a name-uniqueness failure of Set and a not-found failure
of Unset both leave the store and config of the registry untouched. -/
theorem C7_atomicity_witness :
    ((setOp info0 regUN 0 9 []).1.store = regUN.store ∧
      (setOp info0 regUN 0 9 []).1.config = regUN.config) ∧
    ((unsetOp info0 regUN 1 []).1.store = regUN.store ∧
      (unsetOp info0 regUN 1 []).1.config = regUN.config) :=
  ⟨(C7_atomicity info0 regUN 0 9 [] rfl).1 .notUniqueName (by decide),
    (C7_atomicity info0 regUN 1 9 [] rfl).2 .notFound (by decide)⟩

theorem ensure_callOptions {Ty Val : Type} (r : Registry Ty Val) :
    r.ensureCallOpts.callOptions = some r.co := by
  cases h : r.callOptions <;>
    simp [Registry.ensureCallOpts, Registry.co, h]

theorem ensure_of_some {Ty Val : Type} {r : Registry Ty Val}
    {c : CallOptions} (h : r.callOptions = some c) : r.ensureCallOpts = r := by
  simp [Registry.ensureCallOpts, h]

/-- After a successful setType whose call scope asserts no uniqueness, a
getType on the result at the same type finds exactly the stored value
(under the same resolved name, since setType leaves the call options in
place), and the resulting registry is the input with the value stored at
the resolved name. -/
theorem getType_after_set {Ty Val : Type} [DecidableEq Ty]
    (info : Ty → Namedness × Accessibility) (rA : Registry Ty Val)
    (t : Ty) (v : Val) (r2 : Registry Ty Val)
    (hut : rA.co.uniqueType = false) (hun : rA.co.uniqueName = false)
    (hset : setType info rA t v = (r2, none)) :
    getType r2 t = .ok v ∧
    r2 = { rA.ensureCallOpts with store := insertA rA.store t (insertA ((lookupA rA.store t).getD []) (resolvedName rA) v) } := by
  rw [setType_eq] at hset
  split_ifs at hset with h1 h2 h3 h4
  · simp at hset
  · simp at hset
  · simp at hset
  · simp at hset
  rw [Prod.mk.injEq] at hset
  obtain ⟨hr2, -⟩ := hset
  refine ⟨?_, hr2.symm⟩
  have hco2 : r2.callOptions = some rA.co := by
    rw [← hr2]; exact ensure_callOptions rA
  have hens2 : r2.ensureCallOpts = r2 := ensure_of_some hco2
  have hco2v : r2.co = rA.co := by simp [Registry.co, hco2]
  have hcfg2 : r2.config = rA.config := by rw [← hr2]; exact ensure_config rA
  have hst2 : r2.store = insertA rA.store t (insertA ((lookupA rA.store t).getD []) (resolvedName rA) v) := by
    rw [← hr2]
  simp only [getType, hens2, hco2v, hcfg2, hst2, hun, Bool.false_eq_true,
    if_false, lookupA_insertA_self]
  by_cases hu : rA.config.uniqueTypes = true
  · have hlen : ((lookupA rA.store t).getD []).length = 0 := by
      by_contra hne
      exact h3 ⟨by simp [hu, hut], hne⟩
    have hinner : (lookupA rA.store t).getD [] = ([] : List (String × Val)) :=
      List.length_eq_zero.mp hlen
    rw [hinner]
    simp [insertA, lookupA, valueOrDefaultStr, resolvedName]
  · simp only [hut, Bool.or_false]
    rw [if_neg (by simp [hu])]
    rw [show valueOrDefaultStr rA.co.name rA.config.defaultName = resolvedName rA from rfl,
      lookupA_insertA_self]

/-- C5.  Round-trip: on a quiescent, fully constructed registry, if Set
of value v with a given name option (none or one WithName) succeeds,
then Get at the same type with the identical name options returns
exactly v. -/
theorem C5_round_trip {Ty Val : Type} [DecidableEq Ty]
    (info : Ty → Namedness × Accessibility) (r : Registry Ty Val)
    (t : Ty) (v : Val) (no : Option String)
    (hc : r.config.init.complete = true)
    (hq : r.callOptions = none ∨ r.callOptions = some emptyCallOptions)
    (r2 : Registry Ty Val)
    (hset : setOp info r t v (nameOpts no) = (r2, none)) :
    (getOp info r2 t (nameOpts no)).2 = .ok v := by
  have hens : r.ensureCallOpts = { r with callOptions := some emptyCallOptions } := by
    rcases hq with h | h
    · simp [Registry.ensureCallOpts, h]
    · cases r
      simp_all [Registry.ensureCallOpts]
  cases no with
  | none =>
    have hA : applyOptions info r ([] : List (ROpt Ty Val)) =
        ({ r with callOptions := some emptyCallOptions }, none) := by
      simp only [applyOptions]
      rw [hens]
    have hset2 : setType info { r with callOptions := some emptyCallOptions } t v = (r2, none) := by
      have hx := hset
      simp only [setOp, nameOpts] at hx
      rw [hA] at hx
      exact hx
    obtain ⟨hget, hr2⟩ :=
      getType_after_set info { r with callOptions := some emptyCallOptions }
        t v r2 rfl rfl hset2
    have hco2 : r2.callOptions = some emptyCallOptions := by
      rw [hr2]
      rfl
    have hA2 : applyOptions info r2 ([] : List (ROpt Ty Val)) = (r2, none) := by
      simp only [applyOptions]
      rw [ensure_of_some hco2]
    simp only [getOp, nameOpts]
    rw [hA2]
    simp [Registry.co, hco2, emptyCallOptions, hget]
  | some n =>
    have happ1 : applyOpt info (ROpt.withName n) { r with callOptions := some emptyCallOptions } =
        ({ r with callOptions := some { emptyCallOptions with name := n } }, none) := by
      simp [applyOpt, hc, Registry.setCO, Registry.co, emptyCallOptions]
    have hA : applyOptions info r [ROpt.withName n] =
        ({ r with callOptions := some { emptyCallOptions with name := n } }, none) := by
      simp only [applyOptions, sortOpts, insertDesc, applyList]
      rw [hens, happ1]
    have hset2 : setType info { r with callOptions := some { emptyCallOptions with name := n } } t v = (r2, none) := by
      have hx := hset
      simp only [setOp, nameOpts] at hx
      rw [hA] at hx
      exact hx
    obtain ⟨hget, hr2⟩ :=
      getType_after_set info
        { r with callOptions := some { emptyCallOptions with name := n } }
        t v r2 rfl rfl hset2
    have hco2 : r2.callOptions = some { emptyCallOptions with name := n } := by
      rw [hr2]
      rfl
    have hcfg2 : r2.config.init.complete = true := by
      rw [hr2]
      exact hc
    have happ2 : applyOpt info (ROpt.withName n) r2 = (r2, none) := by
      simp only [applyOpt, hcfg2, Bool.true_eq_false, if_false]
      rw [Prod.mk.injEq]
      refine ⟨?_, rfl⟩
      cases r2
      simp_all [Registry.setCO, Registry.co]
    have hA2 : applyOptions info r2 [ROpt.withName n] = (r2, none) := by
      simp only [applyOptions, sortOpts, insertDesc, applyList]
      rw [ensure_of_some hco2, happ2]
    simp only [getOp, nameOpts]
    rw [hA2]
    simp [Registry.co, hco2, emptyCallOptions, hget]

/-- C5 witness: the round trip at a concrete input (Set 7 under name
"x" on the fresh registry, then Get with the same name option). -/
theorem C5_round_trip_witness :
    (getOp info0 regAfterSet 0 (nameOpts (some "x"))).2 = .ok 7 :=
  C5_round_trip info0 freshReg 0 7 (some "x") rfl (Or.inr rfl) regAfterSet
    (by decide)

theorem foldl_invariant_mem {A S : Type} (P : S → Prop) :
    ∀ (l : List A) (f : S → A → S),
      (∀ s x, x ∈ l → P s → P (f s x)) → ∀ init, P init → P (l.foldl f init)
  | [], _, _, _, h0 => h0
  | x :: xs, f, h, init, h0 =>
    foldl_invariant_mem P xs f
      (fun s y hy hP => h s y (List.mem_cons_of_mem _ hy) hP)
      (f init x) (h init x (List.mem_cons_self _ _) h0)

theorem foldl_ne_nil {A B : Type} (f : List B → A → List B)
    (hf : ∀ s x, f s x ≠ []) :
    ∀ (l : List A) (s : List B), (s ≠ [] ∨ l ≠ []) → l.foldl f s ≠ [] := by
  intro l
  induction l with
  | nil =>
    intro s h
    rcases h with h | h
    · exact h
    · simp at h
  | cons x xs ih =>
    intro s h
    simp only [List.foldl_cons]
    exact ih (f s x) (Or.inl (hf s x))

theorem cloneInner_ne_nil {Val : Type} (dd sd : String)
    (instances : List (String × Val)) (acc : List (String × Val))
    (hne : instances ≠ [] ∨ acc ≠ []) :
    cloneInner dd sd "" instances acc ≠ [] := by
  have hf : ∀ (m : List (String × Val)) (nv : String × Val),
      (if ("" : String) ≠ "" then
        if nv.1 = "" then insertA m nv.1 nv.2 else m
      else if dd ≠ sd ∧ nv.1 = sd then insertA m dd nv.2
      else insertA m nv.1 nv.2) ≠ [] := by
    intro m nv
    split_ifs <;> first | exact insertA_ne_nil _ _ _ | simp_all
  rcases hne with h | h
  · exact foldl_ne_nil _ hf instances acc (Or.inr h)
  · exact foldl_ne_nil _ hf instances acc (Or.inl h)

theorem length_eraseA_ge {α β : Type} [DecidableEq α] :
    ∀ (l : List (α × β)) (a : α), l.length ≤ (eraseA l a).length + 1 := by
  intro l
  induction l with
  | nil => intro a; simp [eraseA]
  | cons p rest ih =>
    intro a
    by_cases h : p.1 = a
    · simp [eraseA, h]
    · simp only [eraseA, if_neg h, List.length_cons]
      have := ih a
      omega

theorem setType_storeWF {Ty Val : Type} [DecidableEq Ty]
    (info : Ty → Namedness × Accessibility) (r : Registry Ty Val)
    (t : Ty) (v : Val) (hwf : storeWF r.store) :
    storeWF ((setType info r t v).1).store := by
  rw [setType_eq]
  split_ifs <;> dsimp only <;>
    first
    | (rw [ensure_store]; exact hwf)
    | (intro p hp
       rcases mem_insertA hp with h | h
       · rw [h]
         exact insertA_ne_nil _ _ _
       · exact hwf p h)

theorem unsetType_storeWF {Ty Val : Type} [DecidableEq Ty]
    (r : Registry Ty Val) (t : Ty) (hwf : storeWF r.store) :
    storeWF ((unsetType r t).1).store := by
  rw [unsetType_eq]
  cases hm : lookupA r.store t with
  | none =>
    dsimp only
    rw [ensure_store]
    exact hwf
  | some m =>
    dsimp only
    split_ifs with h1 h2 h3 <;> dsimp only
    · rw [ensure_store]; exact hwf
    · rw [ensure_store]; exact hwf
    · intro p hp
      rcases mem_insertA hp with h | h
      · rw [h]
        intro hnil
        dsimp only at hnil
        have hge := length_eraseA_ge m (resolvedName r)
        rw [hnil] at hge
        simp at hge
        omega
      · exact hwf p h
    · intro p hp
      exact hwf p (mem_eraseA hp)

theorem unsetType_last_removes_key {Ty Val : Type} [DecidableEq Ty]
    (r : Registry Ty Val) (t : Ty) (hok : (unsetType r t).2 = none)
    (hnd : (r.store.map Prod.fst).Nodup)
    (hone : ((lookupA r.store t).getD []).length = 1) :
    lookupA ((unsetType r t).1).store t = none := by
  cases hm : lookupA r.store t with
  | none => simp [unsetType_eq, hm] at hok
  | some m =>
    rw [hm] at hone
    simp only [Option.getD_some] at hone
    rw [unsetType_eq] at hok ⊢
    rw [hm] at hok ⊢
    dsimp only at hok ⊢
    split_ifs at hok ⊢ with h1 h2 h3
    · exfalso
      omega
    · dsimp only
      exact lookupA_eraseA_self r.store t hnd

theorem cloneEntries_storeWF {Ty Val : Type} [DecidableEq Ty]
    (info : Ty → Namedness × Accessibility) (src dest : Registry Ty Val)
    (hname : (src.callOptions.getD emptyCallOptions).name = "")
    (hsrc : storeWF src.store) (hdest : storeWF dest.store) :
    storeWF (cloneEntries info src dest).store := by
  simp only [cloneEntries, hname]
  refine foldl_invariant_mem storeWF src.store _ ?_ dest.store hdest
  intro st rtInst hmem hst
  split_ifs with hA hB
  · exact hst
  · exact hst
  · intro p hp
    rcases mem_insertA hp with h | h
    · rw [h]
      exact cloneInner_ne_nil _ _ _ _ (Or.inl (hsrc rtInst hmem))
    · exact hst p h

/-- C8 counterexample.  A GetAll with a name filter on a registry that
holds an entry of type 0 only under name "a" returns a snapshot mapping
type 0 to an EMPTY inner map: the snapshot contains a type key with zero
named entries, contradicting the claimed shape invariant for GetAll
snapshots. -/
theorem C8_counterexample :
    (getAllOp info0 { store := [(0, [("a", 5)])], config := freshReg.config, callOptions := none } [ROpt.withName "b"]).2 = .ok [(0, [])] ∧
    ¬ storeWF [((0 : Nat), ([] : List (String × Nat)))] :=
  ⟨rfl, by decide⟩

/-- C8 amended.  The shape invariant (a type key exists iff it has at
least one named entry) is preserved by setType and unsetType; Unset of
the last entry for a type removes the type key entirely; and the
snapshot-building cloneEntries machinery (used by GetAll and the clone
options) preserves the invariant whenever the source call options carry
no name filter.  A GetAll with a name filter can instead produce a
snapshot with a type key holding zero entries. -/
theorem C8_store_shape :
    (∀ {Ty Val : Type} [DecidableEq Ty]
      (info : Ty → Namedness × Accessibility) (r : Registry Ty Val)
      (t : Ty) (v : Val), storeWF r.store →
      storeWF ((setType info r t v).1).store) ∧
    (∀ {Ty Val : Type} [DecidableEq Ty] (r : Registry Ty Val) (t : Ty),
      storeWF r.store → storeWF ((unsetType r t).1).store) ∧
    (∀ {Ty Val : Type} [DecidableEq Ty] (r : Registry Ty Val) (t : Ty),
      (unsetType r t).2 = none → (r.store.map Prod.fst).Nodup →
      ((lookupA r.store t).getD []).length = 1 →
      lookupA ((unsetType r t).1).store t = none) ∧
    (∀ {Ty Val : Type} [DecidableEq Ty]
      (info : Ty → Namedness × Accessibility) (r : Registry Ty Val),
      r.co.name = "" → storeWF r.store → storeWF (getAllFn info r).1) :=
  ⟨fun info r t v hwf => setType_storeWF info r t v hwf,
    fun r t hwf => unsetType_storeWF r t hwf,
    fun r t hok hnd hone => unsetType_last_removes_key r t hok hnd hone,
    fun info r hname hwf =>
      cloneEntries_storeWF info r ⟨[], r.config, none⟩ hname hwf
        (by intro p hp; simp at hp)⟩

/-- C8 witness: the amended statement exercised on regOne (one
default-named entry of type 0). -/
theorem C8_store_shape_witness :
    storeWF ((setType info0 regOne 0 9).1).store ∧
    storeWF ((unsetType regOne 0).1).store ∧
    lookupA ((unsetType regOne 0).1).store 0 = none ∧
    storeWF (getAllFn info0 regOne).1 :=
  ⟨C8_store_shape.1 info0 regOne 0 9 (by decide),
    C8_store_shape.2.1 regOne 0 (by decide),
    C8_store_shape.2.2.1 regOne 0 (by decide) (by decide) (by decide),
    C8_store_shape.2.2.2 info0 regOne rfl (by decide)⟩

theorem seen_step {seen : List GoType} {t : GoType}
    (h : ∀ s ∈ seen, sizeOf t < sizeOf s) {m : Nat} (hm : m < sizeOf t) :
    ∀ s ∈ t :: seen, m < sizeOf s := by
  intro s hs
  rcases List.mem_cons.1 hs with rfl | hs
  · exact hm
  · exact lt_trans hm (h s hs)

theorem sizeOf_elem_ptr (e : GoType) : sizeOf e < sizeOf (GoType.ptr e) := by
  simp_arith

theorem sizeOf_elem_slice (e : GoType) : sizeOf e < sizeOf (GoType.slice e) := by
  simp_arith

theorem sizeOf_elem_array (e : GoType) : sizeOf e < sizeOf (GoType.array e) := by
  simp_arith

theorem sizeOf_elem_chanT (e : GoType) : sizeOf e < sizeOf (GoType.chanT e) := by
  simp_arith

theorem sizeOf_key_mapT (k v : GoType) : sizeOf k < sizeOf (GoType.mapT k v) := by
  simp_arith

theorem sizeOf_elem_mapT (k v : GoType) : sizeOf v < sizeOf (GoType.mapT k v) := by
  simp_arith

theorem sizeOf_ins_funcT (ins outs : GoTypeList) :
    sizeOf ins < sizeOf (GoType.funcT ins outs) := by
  simp_arith

theorem sizeOf_outs_funcT (ins outs : GoTypeList) :
    sizeOf outs < sizeOf (GoType.funcT ins outs) := by
  simp_arith

theorem sizeOf_fields_structT (fields : GoTypeList) :
    sizeOf fields < sizeOf (GoType.structT fields) := by
  simp_arith

theorem sizeOf_methods_interfaceT (ms : GoTypeList) :
    sizeOf ms < sizeOf (GoType.interfaceT ms) := by
  simp_arith

theorem sizeOf_head_cons (hd : GoType) (tl : GoTypeList) :
    sizeOf hd < sizeOf (GoTypeList.cons hd tl) := by
  simp_arith

theorem sizeOf_tail_cons (hd : GoType) (tl : GoTypeList) :
    sizeOf tl < sizeOf (GoTypeList.cons hd tl) := by
  simp_arith

mutual
/-- On an ancestor chain of strictly larger types (which is how the seen
set is always populated from an empty start), the classifier agrees with
the spec's reachable-named-types rule. -/
theorem accAux (isUp : Char → Bool) (t : GoType) (seen : List GoType)
    (h : ∀ s ∈ seen, sizeOf t < sizeOf s) :
    accessibleEverywhere isUp t seen = specAccessibleEverywhere isUp t := by
  have hnmem : t ∉ seen := fun hx => absurd (h t hx) (lt_irrefl _)
  cases t with
  | named n p =>
    simp only [accessibleEverywhere, if_neg hnmem]
    simp only [specAccessibleEverywhere, reachableNamed, List.all_cons,
      List.all_nil, Bool.and_true]
    by_cases hp : p = "" <;> simp [hp]
  | ptr e =>
    simp only [accessibleEverywhere, if_neg hnmem]
    rw [accAux isUp e (GoType.ptr e :: seen) (seen_step h (sizeOf_elem_ptr e))]
    simp only [specAccessibleEverywhere, reachableNamed]
  | slice e =>
    simp only [accessibleEverywhere, if_neg hnmem]
    rw [accAux isUp e (GoType.slice e :: seen)
      (seen_step h (sizeOf_elem_slice e))]
    simp only [specAccessibleEverywhere, reachableNamed]
  | array e =>
    simp only [accessibleEverywhere, if_neg hnmem]
    rw [accAux isUp e (GoType.array e :: seen)
      (seen_step h (sizeOf_elem_array e))]
    simp only [specAccessibleEverywhere, reachableNamed]
  | chanT e =>
    simp only [accessibleEverywhere, if_neg hnmem]
    rw [accAux isUp e (GoType.chanT e :: seen)
      (seen_step h (sizeOf_elem_chanT e))]
    simp only [specAccessibleEverywhere, reachableNamed]
  | mapT k v =>
    simp only [accessibleEverywhere, if_neg hnmem]
    rw [accAux isUp k (GoType.mapT k v :: seen)
      (seen_step h (sizeOf_key_mapT k v))]
    rw [accAux isUp v (GoType.mapT k v :: seen)
      (seen_step h (sizeOf_elem_mapT k v))]
    simp [specAccessibleEverywhere, reachableNamed, List.all_append]
  | funcT ins outs =>
    simp only [accessibleEverywhere, if_neg hnmem]
    rw [accAuxList isUp ins (GoType.funcT ins outs :: seen)
      (seen_step h (sizeOf_ins_funcT ins outs))]
    rw [accAuxList isUp outs (GoType.funcT ins outs :: seen)
      (seen_step h (sizeOf_outs_funcT ins outs))]
    simp [specAccessibleEverywhere, specAccessibleList, reachableNamed,
      List.all_append]
  | structT fields =>
    simp only [accessibleEverywhere, if_neg hnmem]
    rw [accAuxList isUp fields (GoType.structT fields :: seen)
      (seen_step h (sizeOf_fields_structT fields))]
    simp [specAccessibleEverywhere, specAccessibleList, reachableNamed]
  | interfaceT ms =>
    simp only [accessibleEverywhere, if_neg hnmem]
    rw [accAuxList isUp ms (GoType.interfaceT ms :: seen)
      (seen_step h (sizeOf_methods_interfaceT ms))]
    simp [specAccessibleEverywhere, specAccessibleList, reachableNamed]
termination_by sizeOf t

/-- Child-list companion of accAux. -/
theorem accAuxList (isUp : Char → Bool) (l : GoTypeList) (seen : List GoType)
    (h : ∀ s ∈ seen, sizeOf l < sizeOf s) :
    accessibleAll isUp l seen = specAccessibleList isUp l := by
  cases l with
  | nil => simp [accessibleAll, specAccessibleList, reachableNamedList]
  | cons hd tl =>
    simp only [accessibleAll]
    rw [accAux isUp hd seen
      (fun s hs => lt_trans (sizeOf_head_cons hd tl) (h s hs))]
    rw [accAuxList isUp tl seen
      (fun s hs => lt_trans (sizeOf_tail_cons hd tl) (h s hs))]
    simp [specAccessibleList, reachableNamedList, specAccessibleEverywhere,
      List.all_append]
termination_by sizeOf l
end

/-- C9.  The accessible-everywhere classifier matches the spec's rule
for every type shape and every choice of the first-rune upper-case test:
a named type is accessible everywhere iff predeclared (empty package
path) or exported (isExported on the name), and an anonymous composite
is accessible everywhere iff every named type reachable through its
structure (struct fields, interface method signatures, map key and
value, slice, array, pointer and channel elements, function parameter
and result types) is predeclared or exported. -/
theorem C9_accessible_everywhere (isUp : Char → Bool) (t : GoType) :
    accessibleEverywhere isUp t [] = specAccessibleEverywhere isUp t :=
  accAux isUp t [] (by intro s hs; simp at hs)

end Reg
